import Mathlib

/-!
Verification of the go-bloomfilter core: the Redis-backed bit store
(`bitmap/redis.go`) and the rotating double-buffered filter pair
(`filter/rotator/rotator.go`).

Machine integers (`uint64`, `int64` nanosecond timestamps) are modelled as
`Nat`; Go's `%` on an unsigned with divisor `0` is a runtime panic, modelled
as `Option.none`.  Fallible calls return `Except`/`Option`.  The remote
backend is modelled as the bit state of the single key a `Redis` value owns,
and the number of commands transmitted in the pipelined round trip is
returned alongside each result so that I/O-count claims are statable.
-/

namespace Bitmap

/-- The remote bit vector behind one key: bit value at each offset. -/
def Bits : Type := Nat → Bool

/-- Effect of one `SetBit key i 1` backend command. -/
def setBit (st : Bits) (i : Nat) : Bits :=
  fun j => if j = i then true else st j

/-- The index folding `loc % r.m` performed while queuing the pipeline
commands, one per input position, in source order.  In Go, `loc % r.m`
with `r.m = 0` is an "integer divide by zero" runtime panic, modelled as
`none`. -/
def computeLocs (m : Nat) (locs : List Nat) : Option (List Nat) :=
  locs.mapM (fun loc => if m = 0 then none else some (loc % m))

/-- Model of `Redis.CheckBits`: queue `GetBit` at `loc % m` for each position, execute
the pipeline as one batch, then AND-reduce the replies (any `0` bit gives
`false`).  Returns the boolean together with the number of commands
transmitted to the backend (an empty pipeline transmits nothing). -/
def CheckBits (m : Nat) (st : Bits) (locs : List Nat) : Option (Bool × Nat) :=
  (computeLocs m locs).map (fun idxs => (idxs.all (fun i => st i), idxs.length))

/-- Model of `Redis.SetBits`: queue `SetBit _ (loc % m) 1` for each position and execute
the pipeline as one batch.  Returns the updated bit state together with the
number of commands transmitted to the backend. -/
def SetBits (m : Nat) (st : Bits) (locs : List Nat) : Option (Bits × Nat) :=
  (computeLocs m locs).map (fun idxs => (idxs.foldl setBit st, idxs.length))

/-- Decimal digit character, as produced by `fmt.Sprintf("%d", _)`. -/
def digitChar (d : Nat) : Char := Char.ofNat (d + 48)

/-- Big-endian decimal digits of `n`, fuel-indexed so the kernel can
evaluate it; `decRepr` always supplies enough fuel. -/
def decAux (fuel : Nat) (n : Nat) : List Char :=
  match fuel with
  | 0 => []
  | fuel + 1 =>
      if n = 0 then [] else decAux fuel (n / 10) ++ [digitChar (n % 10)]

/-- Decimal rendering of a natural number, the `%d` verb of
`fmt.Sprintf`. -/
def decRepr (n : Nat) : String :=
  if n = 0 then "0" else ⟨decAux (n + 1) n⟩

/-- The generated remote key: `fmt.Sprintf("%s_%d", key, now.UnixNano())`,
where `now` is the construction instant (nanoseconds). -/
def genKey (key : String) (nowUnixNano : Nat) : String :=
  key ++ "_" ++ decRepr nowUnixNano

/-- The `Redis` bit store value: the generated key and the size `m`. -/
structure Redis where
  key : String
  m : Nat
deriving DecidableEq

/-- The option-application loop at the end of `NewRedis`: run each option on
the constructed value, aborting on the first option error. -/
def applyOpts (ε : Type) (r : Redis) : List (Redis → Option ε) → Except ε Redis
  | [] => .ok r
  | opt :: rest =>
      match opt r with
      | some e => .error e
      | none => applyOpts ε r rest

/-- Model of `NewRedis`: stamps the logical key with the construction instant, stores
`m` unvalidated, materializes the key on the backend (a `SetBit key 0 0`,
which does not affect any claim and is not tracked here), then applies the
options in order, aborting on the first option error. -/
def NewRedis (ε : Type) (key : String) (m : Nat) (nowUnixNano : Nat)
    (opts : List (Redis → Option ε)) : Except ε Redis :=
  let r : Redis := ⟨genKey key nowUnixNano, m⟩
  applyOpts ε r opts

end Bitmap

namespace Rotator

/-- The rotator configuration read by `rotator.go`: `Enable`, `Mode` (an enum,
treated abstractly by the rotator and modelled as `Nat`), and `Freq` (a duration in
nanoseconds). -/
structure RotatorConfig where
  enable : Bool
  mode : Nat
  freq : Nat

/-- The context value `core.BitmapFactoryCtxValue` that `genFilter` attaches
for the filter constructor. -/
structure BitmapFactoryCtxValue where
  isRotatorEnabled : Bool
  isNextFilter : Bool
  rotatorMode : Nat
  now : Nat
deriving DecidableEq

/-- The external `filter.Filter` capability over filter states of type `σ`:
`Add` returns the updated state and an optional error (the state is kept
even on error, matching Go's in-place mutation), `Exist` returns a boolean
and an optional error. -/
structure FilterOps (σ ε : Type) where
  add : σ → String → σ × Option ε
  exist : σ → String → Bool × Option ε

/-- The immutable `filterPair` value held in the rotator's atomic cell. -/
structure FilterPair (σ : Type) where
  current : σ
  next : σ
deriving DecidableEq

/-- A `NewFilterFunc`: builds a filter from the rotation context. -/
def NewFilterFunc (σ ε : Type) : Type := BitmapFactoryCtxValue → Except ε σ

/-- Model of `Rotator.genFilter`: packs the rotation context value (config flags plus
the call instant) and invokes the filter constructor. -/
def genFilter (nf : NewFilterFunc σ ε) (cfg : RotatorConfig) (isNext : Bool)
    (now : Nat) : Except ε σ :=
  let val : BitmapFactoryCtxValue :=
    ⟨cfg.enable, isNext, cfg.mode, now⟩
  match nf val with
  | .error e => .error e
  | .ok f => .ok f

/-- Which filter of the pair an `Add` delegation went to. -/
inductive AddCall where
  | current
  | next
deriving DecidableEq

/-- Model of `Rotator.Add`: load the pair, `Add` on `current`; on error return it at
once, otherwise `Add` on `next` and return its result.  Also returns the
trace of delegated `Add` calls, in order. -/
def RotatorAdd (ops : FilterOps σ ε) (p : FilterPair σ) (data : String) :
    FilterPair σ × Option ε × List AddCall :=
  let (c, e1) := ops.add p.current data
  match e1 with
  | some e => (⟨c, p.next⟩, some e, [AddCall.current])
  | none =>
      let (n, e2) := ops.add p.next data
      (⟨c, n⟩, e2, [AddCall.current, AddCall.next])

/-- Model of `Rotator.Exist`: delegate to the current filter of the loaded pair. -/
def RotatorExist (ops : FilterOps σ ε) (p : FilterPair σ) (data : String) :
    Bool × Option ε :=
  ops.exist p.current data

/-- Model of `Rotator.rotate`: build a new filter (with `isNext = true` and the tick
instant); on construction error return it with the pair untouched and zero
stores; on success store — once — the pair whose `current` is the old
`next` and whose `next` is the new filter.  The middle component counts
`pair.Store` calls. -/
def rotate (nf : NewFilterFunc σ ε) (cfg : RotatorConfig) (now : Nat)
    (pair : FilterPair σ) : FilterPair σ × Nat × Option ε :=
  match genFilter nf cfg true now with
  | .error e => (pair, 0, some e)
  | .ok newFilter =>
      let oldPair := pair
      let newPair : FilterPair σ := ⟨oldPair.next, newFilter⟩
      (newPair, 1, none)

/-- Go's `time.Time.Truncate`: round the instant down to a multiple of `d`
since the zero time; `d = 0` (Go: `d <= 0`) returns the instant unchanged. -/
def truncateTime (t d : Nat) : Nat :=
  if d = 0 then t else t - t % d

/-- The boundary `handleRotating` computes each iteration:
`current.Add(freq).Truncate(freq)`. -/
def nextRotationTime (current freq : Nat) : Nat :=
  truncateTime (current + freq) freq

/-- The duration `handleRotating` arms its timer with:
`next.Sub(current)`. -/
def timerDuration (current freq : Nat) : Nat :=
  nextRotationTime current freq - current

/-- One wake-up of the `handleRotating` select: either the timer fired (at
instant `now`, which `rotate`'s `genFilter` reads as `time.Now()`), or the
context was cancelled. -/
inductive LoopEvent where
  | timerFire (now : Nat)
  | ctxDone

/-- The rotation loop's observable state: the pair in the atomic cell, how
many times it was stored, and whether the loop has returned. -/
structure LoopState (σ : Type) where
  pair : FilterPair σ
  stores : Nat
  stopped : Bool
deriving DecidableEq

/-- One iteration of `handleRotating`'s `for`/`select`: cancellation returns
from the loop; a timer fire runs `rotate`, whose error (if any) is discarded
and the loop continues either way. -/
def loopStep (nf : NewFilterFunc σ ε) (cfg : RotatorConfig) (st : LoopState σ)
    (ev : LoopEvent) : LoopState σ :=
  if st.stopped then st
  else
    match ev with
    | .ctxDone => { st with stopped := true }
    | .timerFire now =>
        let (p, k, _) := rotate nf cfg now st.pair
        { pair := p, stores := st.stores + k, stopped := false }

/-- Model of `handleRotating` run over a finite schedule of wake-ups. -/
def handleRotating (nf : NewFilterFunc σ ε) (cfg : RotatorConfig)
    (st : LoopState σ) : List LoopEvent → LoopState σ
  | [] => st
  | ev :: rest => handleRotating nf cfg (loopStep nf cfg st ev) rest

/-- Model of `Rotator.genFilterPair`: build `current` (with `isNext = false`) then
`next` (with `isNext = true`), aborting on the first error; the two
constructor calls read `time.Now()` separately (`now1`, `now2`). -/
def genFilterPair (nf : NewFilterFunc σ ε) (cfg : RotatorConfig)
    (now1 now2 : Nat) : Except ε (FilterPair σ) :=
  match genFilter nf cfg false now1 with
  | .error e => .error e
  | .ok current =>
      match genFilter nf cfg true now2 with
      | .error e => .error e
      | .ok next => .ok ⟨current, next⟩

/-- Model of `NewRotator`: build the initial pair synchronously; on error return
`(nil, err)` without spawning the rotation task; on success store the pair
and spawn `handleRotating`.  The boolean records whether the background
task was started. -/
def NewRotator (nf : NewFilterFunc σ ε) (cfg : RotatorConfig)
    (now1 now2 : Nat) : Except ε (FilterPair σ) × Bool :=
  match genFilterPair nf cfg now1 now2 with
  | .error e => (.error e, false)
  | .ok p => (.ok p, true)

end Rotator

namespace Bitmap

/-- Numeric value of a decimal digit character (decoding helper used to
prove `decRepr` injective). -/
def charVal (c : Char) : Nat := c.toNat - 48

/-- Decimal decoding of a big-endian digit string with accumulator `a`. -/
def decVal (a : Nat) : List Char → Nat
  | [] => a
  | c :: cs => decVal (10 * a + charVal c) cs

end Bitmap

namespace Rotator

/-- Modelled from the spec: the external `filter.Filter` capability (its
Bloom-filter implementation is outside the bitmap/rotator core shown here).
`Add` records the item into the filter state; `Exist` reports membership
with possible false positives (`fp`) but no false negatives; neither call
fails. -/
def specFilter (fp : List String → String → Bool) :
    FilterOps (List String) Unit where
  add := fun s x => (x :: s, none)
  exist := fun s x => (decide (x ∈ s) || fp s x, none)

/-- A probe filter capability whose `Add` fails exactly on the item
`"bad"`, used to exercise the error branches at concrete inputs. -/
def probeOps : FilterOps (List String) Unit where
  add := fun s x => if x = "bad" then (s, some ()) else (x :: s, none)
  exist := fun s x => (decide (x ∈ s), none)

/-- A probe filter constructor that always succeeds, returning the rotation
instant it was handed as the filter state. -/
def probeNf : NewFilterFunc Nat Unit := fun v => .ok v.now

/-- A probe filter constructor that always fails. -/
def probeNfFail : NewFilterFunc Nat Unit := fun _ => .error ()

/-- A probe filter constructor over list-of-items filter states. -/
def probeNfList : NewFilterFunc (List String) Unit := fun _ => .ok []

/-- A probe rotator configuration. -/
def probeCfg : RotatorConfig := ⟨true, 0, 3⟩

end Rotator

namespace Bitmap

theorem foldl_setBit_of_base (idxs : List Nat) (st : Bits) (i : Nat)
    (h : st i = true) : idxs.foldl setBit st i = true := by
  induction idxs generalizing st with
  | nil => exact h
  | cons a as ih =>
      apply ih
      by_cases hia : i = a <;> simp [setBit, hia, h]

theorem foldl_setBit_of_mem (idxs : List Nat) (st : Bits) (i : Nat)
    (h : i ∈ idxs) : idxs.foldl setBit st i = true := by
  induction idxs generalizing st with
  | nil => cases h
  | cons a as ih =>
      rcases List.mem_cons.mp h with rfl | hmem
      · exact foldl_setBit_of_base as (setBit st i) i (by simp [setBit])
      · exact ih (setBit st a) hmem

theorem computeLocs_of_pos (m : Nat) (hm : m ≠ 0) (locs : List Nat) :
    computeLocs m locs = some (locs.map (fun l => l % m)) := by
  induction locs with
  | nil => rfl
  | cons a as ih =>
      unfold computeLocs at ih ⊢
      rw [List.mapM_cons, ih]
      simp [hm]

theorem computeLocs_zero (locs : List Nat) (h : locs ≠ []) :
    computeLocs 0 locs = none := by
  cases locs with
  | nil => exact absurd rfl h
  | cons a as => rfl

theorem computeLocs_eq_none_iff (m : Nat) (locs : List Nat) :
    computeLocs m locs = none ↔ m = 0 ∧ locs ≠ [] := by
  constructor
  · intro h
    by_cases hm : m = 0
    · refine ⟨hm, fun hl => ?_⟩
      subst hl
      exact Option.noConfusion h
    · rw [computeLocs_of_pos m hm] at h
      cases h
  · rintro ⟨rfl, hl⟩
    exact computeLocs_zero locs hl

/-- C8: `CheckBits` on an empty position list returns `(true, nil)` and
transmits zero commands to the backend. -/
theorem checkBits_empty_no_io (m : Nat) (st : Bits) :
    CheckBits m st [] = some (true, 0) := rfl

/-- C4: whenever `SetBits` succeeds on a non-empty position list, an
immediately following `CheckBits` on the same positions over the resulting
bit state succeeds and returns `true`. -/
theorem setBits_then_checkBits (m : Nat) (st st2 : Bits) (locs : List Nat)
    (k : Nat) (_hne : locs ≠ []) (h : SetBits m st locs = some (st2, k)) :
    CheckBits m st2 locs = some (true, k) := by
  unfold SetBits at h
  rcases Option.map_eq_some'.mp h with ⟨idxs, hc, heq⟩
  rcases Prod.mk.injEq .. ▸ heq with ⟨hst2, hk⟩
  unfold CheckBits
  rw [hc]
  have hall : idxs.all (fun i => st2 i) = true := by
    rw [List.all_eq_true]
    intro i hi
    rw [← hst2]
    exact foldl_setBit_of_mem idxs st i hi
  simp [hall, hk]

/-- Closed witness for C4 at a concrete store and position list. -/
theorem setBits_then_checkBits_witness :
    CheckBits 5 (([3, 12, 7].map (fun l => l % 5)).foldl setBit
      (fun _ => false)) [3, 12, 7] = some (true, 3) :=
  setBits_then_checkBits 5 (fun _ => false) _ [3, 12, 7] 3 (by simp) rfl

end Bitmap

namespace Bitmap

/-- C10: `CheckBits` and `SetBits` hit the mod-by-zero panic exactly when
`m = 0` and the position list is non-empty (so they are total iff `m > 0`),
and `NewRedis` accepts `m = 0` without any validation. -/
theorem bit_ops_total_iff_m_pos (m : Nat) (st : Bits) (locs : List Nat) :
    (CheckBits m st locs = none ↔ m = 0 ∧ locs ≠ []) ∧
    (SetBits m st locs = none ↔ m = 0 ∧ locs ≠ []) ∧
    (∀ key now, NewRedis Unit key 0 now [] = .ok ⟨genKey key now, 0⟩) := by
  refine ⟨?_, ?_, fun key now => rfl⟩
  · rw [CheckBits, Option.map_eq_none']
    exact computeLocs_eq_none_iff m locs
  · rw [SetBits, Option.map_eq_none']
    exact computeLocs_eq_none_iff m locs

theorem decVal_append (xs : List Char) (a : Nat) (c : Char) :
    decVal a (xs ++ [c]) = 10 * decVal a xs + charVal c := by
  induction xs generalizing a with
  | nil => rfl
  | cons x xs ih =>
      rw [List.cons_append]
      exact ih (10 * a + charVal x)

theorem charVal_digitChar (d : Nat) (h : d < 10) :
    charVal (digitChar d) = d := by
  interval_cases d <;> rfl

theorem decVal_decAux (fuel n : Nat) (h : n ≤ fuel) :
    decVal 0 (decAux fuel n) = n := by
  induction fuel generalizing n with
  | zero =>
      have hn : n = 0 := Nat.le_zero.mp h
      subst hn
      rfl
  | succ fuel ih =>
      by_cases hn : n = 0
      · subst hn
        rfl
      · have hdiv : n / 10 ≤ fuel := by
          have := Nat.div_lt_self (Nat.pos_of_ne_zero hn) (by norm_num : (1 : Nat) < 10)
          omega
        have hmod : charVal (digitChar (n % 10)) = n % 10 :=
          charVal_digitChar (n % 10) (Nat.mod_lt n (by norm_num))
        show decVal 0
          (if n = 0 then [] else decAux fuel (n / 10) ++ [digitChar (n % 10)]) = n
        rw [if_neg hn, decVal_append, ih (n / 10) hdiv, hmod]
        omega

theorem decRepr_decVal (n : Nat) : decVal 0 (decRepr n).data = n := by
  by_cases h : n = 0
  · subst h
    rfl
  · rw [decRepr, if_neg h]
    exact decVal_decAux (n + 1) n (Nat.le_succ n)

theorem decRepr_injective : Function.Injective decRepr := by
  intro a b h
  calc a = decVal 0 (decRepr a).data := (decRepr_decVal a).symm
    _ = decVal 0 (decRepr b).data := by rw [h]
    _ = b := decRepr_decVal b

theorem genKey_stamp_injective (key : String) (t1 t2 : Nat)
    (h : genKey key t1 = genKey key t2) : t1 = t2 := by
  apply decRepr_injective
  apply String.ext
  have hd := congrArg String.data h
  simp only [genKey, String.data_append] at hd
  exact List.append_cancel_left hd

theorem applyOpts_ok (ε : Type) (r r2 : Redis) (l : List (Redis → Option ε))
    (h : applyOpts ε r l = .ok r2) : r2 = r := by
  induction l with
  | nil => cases h; rfl
  | cons o l ih =>
      rw [applyOpts] at h
      cases ho : o r with
      | some e => rw [ho] at h; cases h
      | none => rw [ho] at h; exact ih h

theorem newRedis_ok_key (ε : Type) (key : String) (m t : Nat)
    (opts : List (Redis → Option ε)) (r : Redis)
    (h : NewRedis ε key m t opts = .ok r) : r = ⟨genKey key t, m⟩ :=
  applyOpts_ok ε ⟨genKey key t, m⟩ r opts h

/-- Counterexample to C7: two `NewRedis` constructions from the same logical
name whose instantiation instants coincide (same `UnixNano` reading, as
happens back-to-back under a coarse clock) receive the identical remote
key. -/
theorem newRedis_key_aliases_at_equal_stamp :
    NewRedis Unit "bloom" 64 7 [] = .ok ⟨"bloom_7", 64⟩ ∧
    NewRedis Unit "bloom" 32 7 [] = .ok ⟨"bloom_7", 32⟩ := by
  exact ⟨rfl, rfl⟩

/-- C7 (amended): two `NewRedis` constructions from the same logical name
receive distinct remote keys whenever their instantiation stamps
(`UnixNano` readings) differ. -/
theorem newRedis_keys_distinct_of_distinct_stamp (ε : Type) (key : String)
    (m1 m2 t1 t2 : Nat) (o1 o2 : List (Redis → Option ε)) (r1 r2 : Redis)
    (hne : t1 ≠ t2) (h1 : NewRedis ε key m1 t1 o1 = .ok r1)
    (h2 : NewRedis ε key m2 t2 o2 = .ok r2) : r1.key ≠ r2.key := by
  rw [newRedis_ok_key ε key m1 t1 o1 r1 h1, newRedis_ok_key ε key m2 t2 o2 r2 h2]
  intro hk
  exact hne (genKey_stamp_injective key t1 t2 hk)

/-- Closed witness for the amended C7 at concrete stamps 1 and 2. -/
theorem newRedis_keys_distinct_witness :
    (⟨"bloom_1", 4⟩ : Redis).key ≠ (⟨"bloom_2", 4⟩ : Redis).key :=
  newRedis_keys_distinct_of_distinct_stamp Unit "bloom" 4 4 1 2 [] []
    ⟨"bloom_1", 4⟩ ⟨"bloom_2", 4⟩ (by decide) rfl rfl

end Bitmap

namespace Rotator

/-- C1: `Rotator.Add` delegates to the current filter first; a current-side
error is returned at once and the next filter's `Add` is never invoked,
while on current-side success the next filter's `Add` runs and its result
is returned even though the current-side mutation is already in place. -/
theorem rotatorAdd_delegation (σ ε : Type) (ops : FilterOps σ ε)
    (p : FilterPair σ) (x : String) :
    (∀ e, (ops.add p.current x).2 = some e →
        RotatorAdd ops p x =
          (⟨(ops.add p.current x).1, p.next⟩, some e, [AddCall.current])) ∧
    ((ops.add p.current x).2 = none →
        RotatorAdd ops p x =
          (⟨(ops.add p.current x).1, (ops.add p.next x).1⟩,
            (ops.add p.next x).2, [AddCall.current, AddCall.next])) := by
  rcases hc : ops.add p.current x with ⟨c, e1⟩
  constructor
  · intro e he
    simp only [hc] at he
    subst he
    unfold RotatorAdd
    rw [hc]
  · intro he
    simp only [hc] at he
    subst he
    rcases hn : ops.add p.next x with ⟨n, e2⟩
    unfold RotatorAdd
    rw [hc, hn]

/-- Closed witness for C1 exercising both the failing-current and the
succeeding-current branch at concrete inputs. -/
theorem rotatorAdd_delegation_witness :
    RotatorAdd probeOps ⟨["w"], []⟩ "bad" =
      (⟨["w"], []⟩, some (), [AddCall.current]) ∧
    RotatorAdd probeOps ⟨["w"], []⟩ "ok" =
      (⟨["ok", "w"], ["ok"]⟩, none, [AddCall.current, AddCall.next]) :=
  ⟨(rotatorAdd_delegation (List String) Unit probeOps ⟨["w"], []⟩ "bad").1 () rfl,
    (rotatorAdd_delegation (List String) Unit probeOps ⟨["w"], []⟩ "ok").2 rfl⟩

/-- C2: when the tick's filter construction succeeds, `rotate` performs
exactly one store, of the pair built from the old pair's `next` filter and
the newly constructed filter. -/
theorem rotate_success (σ ε : Type) (nf : NewFilterFunc σ ε)
    (cfg : RotatorConfig) (now : Nat) (p : FilterPair σ) (f : σ)
    (h : genFilter nf cfg true now = .ok f) :
    rotate nf cfg now p = (⟨p.next, f⟩, 1, none) := by
  unfold rotate
  rw [h]

/-- Closed witness for C2 at a concrete constructor and pair. -/
theorem rotate_success_witness :
    rotate probeNf probeCfg 5 ⟨1, 2⟩ = (⟨2, 5⟩, 1, none) :=
  rotate_success Nat Unit probeNf probeCfg 5 ⟨1, 2⟩ 5 rfl

/-- C3: when the tick's filter construction fails, `rotate` performs no
store and returns the very pair it was given, the loop iteration leaves the
loop state untouched, and the loop proceeds to the rest of its schedule. -/
theorem rotate_failure_preserves_pair (σ ε : Type) (nf : NewFilterFunc σ ε)
    (cfg : RotatorConfig) (now : Nat) (e : ε)
    (h : genFilter nf cfg true now = .error e) :
    (∀ p : FilterPair σ, rotate nf cfg now p = (p, 0, some e)) ∧
    (∀ st : LoopState σ, st.stopped = false →
        loopStep nf cfg st (LoopEvent.timerFire now) = st) ∧
    (∀ (st : LoopState σ) (rest : List LoopEvent), st.stopped = false →
        handleRotating nf cfg st (LoopEvent.timerFire now :: rest) =
          handleRotating nf cfg st rest) := by
  have hrot : ∀ p : FilterPair σ, rotate nf cfg now p = (p, 0, some e) := by
    intro p
    unfold rotate
    rw [h]
  have hstep : ∀ st : LoopState σ, st.stopped = false →
      loopStep nf cfg st (LoopEvent.timerFire now) = st := by
    intro st hs
    cases st with
    | mk pair stores stopped =>
        simp only at hs
        subst hs
        simp [loopStep, hrot]
  refine ⟨hrot, hstep, fun st rest hs => ?_⟩
  show handleRotating nf cfg (loopStep nf cfg st (LoopEvent.timerFire now)) rest =
    handleRotating nf cfg st rest
  rw [hstep st hs]

/-- Closed witness for C3: a failing construction leaves a concrete running
loop state exactly as it was. -/
theorem rotate_failure_preserves_pair_witness :
    loopStep probeNfFail probeCfg ⟨⟨1, 2⟩, 5, false⟩ (LoopEvent.timerFire 9) =
      ⟨⟨1, 2⟩, 5, false⟩ :=
  (rotate_failure_preserves_pair Nat Unit probeNfFail probeCfg 9 () rfl).2.1
    ⟨⟨1, 2⟩, 5, false⟩ rfl

/-- C9: if building the initial filter pair fails, `NewRotator` returns the
error, no rotator value, and never starts the background rotation task. -/
theorem newRotator_initial_failure (σ ε : Type) (nf : NewFilterFunc σ ε)
    (cfg : RotatorConfig) (now1 now2 : Nat) (e : ε)
    (h : genFilterPair nf cfg now1 now2 = .error e) :
    NewRotator nf cfg now1 now2 = (.error e, false) := by
  unfold NewRotator
  rw [h]

/-- Closed witness for C9 with a constructor that always fails. -/
theorem newRotator_initial_failure_witness :
    NewRotator probeNfFail probeCfg 1 2 = (.error (), false) :=
  newRotator_initial_failure Nat Unit probeNfFail probeCfg 1 2 () rfl

/-- C5: if `Rotator.Add x` reports no error and a rotation then completes
successfully with no interleaving writes, `Rotator.Exist x` on the new pair
returns `true` — assuming the external filter capability's contract that an
item just added (successfully) is reported present. -/
theorem add_then_rotation_exists (σ ε : Type) (ops : FilterOps σ ε)
    (hnfn : ∀ (s : σ) (x : String), (ops.add s x).2 = none →
        ops.exist (ops.add s x).1 x = (true, none))
    (p p1 : FilterPair σ) (x : String) (tr : List AddCall)
    (hadd : RotatorAdd ops p x = (p1, none, tr))
    (nf : NewFilterFunc σ ε) (cfg : RotatorConfig) (now : Nat)
    (p2 : FilterPair σ) (k : Nat)
    (hrot : rotate nf cfg now p1 = (p2, k, none)) :
    RotatorExist ops p2 x = (true, none) := by
  rcases hc : ops.add p.current x with ⟨c, e1⟩
  unfold RotatorAdd at hadd
  rw [hc] at hadd
  cases e1 with
  | some e => simp at hadd
  | none =>
      rcases hn : ops.add p.next x with ⟨n, e2⟩
      rw [hn] at hadd
      simp only [Prod.mk.injEq] at hadd
      obtain ⟨hp1, he2, -⟩ := hadd
      unfold rotate at hrot
      cases hg : genFilter nf cfg true now with
      | error e => rw [hg] at hrot; simp at hrot
      | ok f =>
          rw [hg] at hrot
          simp only [Prod.mk.injEq] at hrot
          obtain ⟨hp2, -, -⟩ := hrot
          unfold RotatorExist
          rw [← hp2, ← hp1]
          have hcontract := hnfn p.next x (by rw [hn, he2])
          rw [hn] at hcontract
          exact hcontract

/-- Closed witness for C5 with the spec-modelled filter capability. -/
theorem add_then_rotation_exists_witness :
    RotatorExist (specFilter (fun _ _ => false)) ⟨["a"], []⟩ "a" = (true, none) :=
  add_then_rotation_exists (List String) Unit (specFilter (fun _ _ => false))
    (by intro s x h; simp [specFilter])
    ⟨[], []⟩ ⟨["a"], ["a"]⟩ "a" [AddCall.current, AddCall.next] rfl
    probeNfList probeCfg 3 ⟨["a"], []⟩ 1 rfl

/-- C6: the rotation loop arms its timer with
`(now + freq).Truncate(freq) - now`, which makes the first fire land on the
next multiple-of-`freq` wall-clock boundary after `now` — never on
`now + freq` unless `now` is itself aligned. -/
theorem handleRotating_timer_alignment (current freq : Nat) (h : 0 < freq) :
    current + timerDuration current freq = nextRotationTime current freq ∧
    nextRotationTime current freq = freq * (current / freq + 1) ∧
    freq ∣ nextRotationTime current freq ∧
    current < nextRotationTime current freq ∧
    nextRotationTime current freq ≤ current + freq ∧
    (nextRotationTime current freq = current + freq ↔ freq ∣ current) ∧
    (∀ b, freq ∣ b → current < b → nextRotationTime current freq ≤ b) := by
  have hfz : freq ≠ 0 := by omega
  have hkey : nextRotationTime current freq = freq * (current / freq + 1) := by
    unfold nextRotationTime truncateTime
    rw [if_neg hfz]
    have h1 : (current + freq) % freq = current % freq :=
      Nat.add_mod_right current freq
    have h3 : (current + freq) / freq = current / freq + 1 :=
      Nat.add_div_right current h
    have h4 := Nat.div_add_mod (current + freq) freq
    rw [h3, h1] at h4
    omega
  have hkeyL : nextRotationTime current freq = freq * (current / freq) + freq := by
    rw [hkey, Nat.mul_add, Nat.mul_one]
  have hqr := Nat.div_add_mod current freq
  have hrlt : current % freq < freq := Nat.mod_lt current h
  have hd : timerDuration current freq = nextRotationTime current freq - current :=
    rfl
  refine ⟨by omega, hkey, ⟨current / freq + 1, hkey⟩, by omega, by omega, ?_, ?_⟩
  · constructor
    · intro heq
      have hr0 : current % freq = 0 := by omega
      exact Nat.dvd_of_mod_eq_zero hr0
    · intro hdvd
      have hr0 : current % freq = 0 := Nat.mod_eq_zero_of_dvd hdvd
      omega
  · rintro b ⟨kk, rfl⟩ hlt
    have hq : current / freq < kk := by
      by_contra hle
      push_neg at hle
      have hmul : freq * kk ≤ freq * (current / freq) :=
        Nat.mul_le_mul_left freq hle
      omega
    have hmul2 : freq * (current / freq + 1) ≤ freq * kk :=
      Nat.mul_le_mul_left freq hq
    omega

/-- Closed witness for C6 at the misaligned start 5 with frequency 3. -/
theorem handleRotating_timer_alignment_witness :
    0 < 3 ∧ 5 + timerDuration 5 3 = nextRotationTime 5 3 :=
  ⟨by decide, (handleRotating_timer_alignment 5 3 (by decide)).1⟩

end Rotator
